import Mathlib

/-!
Shallow embedding of the data-normalization and indicator engine of
`src/streamlit_app.py` (a stock dashboard).  Prices, averages and
indicator values are modelled as exact rationals `ℚ`; the IEEE-754
special values that the pandas pipeline produces (`inf` from `x/0` with
`x > 0`, `NaN` from `0/0`) are modelled explicitly by the `FVal` type so
that `fillna` and the "never NaN" properties are faithfully expressible.
-/

namespace StockDashboard

/-- A float cell of a pandas series: a finite (rational) number, `+inf`,
or `NaN`. -/
inductive FVal where
  | num (q : ℚ)
  | pinf
  | nan
deriving DecidableEq

/-! ## SchemaNormalizer: `get_stock_data` (src lines 16–33)

A raw provider table (`yf.download` result).  Its columns are either
keyed two-deep — a `pd.MultiIndex` of (field, ticker) — or one-deep
(plain field or ticker names).  A column is a key together with its
list of cell values; the row index is implicit. -/
inductive Frame where
  | multi (cols : List (String × String × List ℚ))
  | flat (cols : List (String × List ℚ))
deriving DecidableEq

/-- `df.empty`: true when the frame has no columns or no rows (with the
usual rectangular-frame convention that all columns have equally many
rows, "no rows" is "every column's value list is empty"). -/
def Frame.isEmpty : Frame → Bool
  | .multi cols => cols.isEmpty || cols.all (fun c => c.2.2.isEmpty)
  | .flat cols => cols.isEmpty || cols.all (fun c => c.2.isEmpty)

/-- `df.columns.get_level_values(0)` of a two-level frame. -/
def outerKeys (cols : List (String × String × List ℚ)) : List String :=
  cols.map (·.1)

/-- `df['Close']` on a two-level frame: keep the columns whose outer key
is the requested field, dropping the outer level, so the result is a
one-level frame keyed by ticker. -/
def selectField (field : String) (cols : List (String × String × List ℚ)) :
    List (String × List ℚ) :=
  cols.filterMap (fun c => if c.1 = field then some (c.2.1, c.2.2) else none)

/-- `get_stock_data` (src lines 16–33), with the provider call factored
out: it receives the downloaded frame and returns `none` where the
source calls `st.error` and returns `None`.  On a two-level frame it
projects to the `Close` sub-table; on a one-level frame it only checks
that a `Close` column exists and returns the frame unchanged. -/
def get_stock_data (df : Frame) : Option Frame :=
  if df.isEmpty then none
  else
    match df with
    | .multi cols =>
        if "Close" ∈ outerKeys cols then some (.flat (selectField "Close" cols))
        else none
    | .flat cols =>
        if "Close" ∈ cols.map (·.1) then some (.flat cols)
        else none

/-! ## IndicatorEngine: `calculate_rsi` (src lines 70–80) -/

/-- The gain series: `delta = data.diff(1)` followed by
`delta.where(delta > 0, 0.0)`.  The first `diff` cell is `NaN`, and
`NaN > 0` is false, so position 0 becomes `0.0`; every later position
`t` is `max (data[t] - data[t-1]) 0`. -/
def gains : List ℚ → List ℚ
  | [] => []
  | x :: xs => 0 :: List.zipWith (fun a b => max (b - a) 0) (x :: xs) xs

/-- The loss series: `-delta.where(delta < 0, 0.0)`.  Position 0 is
`-0.0 = 0`; later positions are `max (data[t-1] - data[t]) 0`. -/
def losses : List ℚ → List ℚ
  | [] => []
  | x :: xs => 0 :: List.zipWith (fun a b => max (a - b) 0) (x :: xs) xs

/-- `series.rolling(window=w, min_periods=1).mean()`: at index `i` the
mean of the last `min (i+1) w` values, i.e. of indices
`max 0 (i+1-w) .. i` (natural subtraction supplies the clamp).  With
`min_periods=1` and `w ≥ 1` every window is non-empty, so no cell of
the result is `NaN`. -/
def rollingMean (w : ℕ) (xs : List ℚ) : List ℚ :=
  (List.range xs.length).map (fun i =>
    let win := (xs.take (i + 1)).drop (i + 1 - w)
    win.sum / (win.length : ℚ))

/-- One cell of `rsi = 100 - (100 / (1 + avg_gain / avg_loss))` under
IEEE-754 semantics, for the non-negative averages produced above:
`g/0 = +inf` for `g > 0`, giving `100 - 100/inf = 100`; `0/0 = NaN`,
which propagates; otherwise exact arithmetic with `1 + g/l ≥ 1 > 0`. -/
def rsiCell (g l : ℚ) : FVal :=
  if l = 0 then (if g = 0 then .nan else .num 100)
  else .num (100 - 100 / (1 + g / l))

/-- `series.fillna(50)` on one cell. -/
def fillna50 (v : FVal) : FVal :=
  match v with
  | .nan => .num 50
  | v => v

/-- `calculate_rsi` (src lines 70–80). -/
def calculate_rsi (data : List ℚ) (window : ℕ) : List FVal :=
  let avg_gain := rollingMean window (gains data)
  let avg_loss := rollingMean window (losses data)
  (List.zipWith rsiCell avg_gain avg_loss).map fillna50

/-! ## IndicatorEngine: `calculate_macd` (src lines 83–88) -/

/-- Tail of `series.ewm(span=s, adjust=False).mean()` after the seed:
`y[t] = (1-α)·y[t-1] + α·x[t]`. -/
def ewmFrom (α : ℚ) (prev : ℚ) : List ℚ → List ℚ
  | [] => []
  | x :: xs =>
      let y := (1 - α) * prev + α * x
      y :: ewmFrom α y xs

/-- `series.ewm(span=s, adjust=False).mean()` with `α = 2/(s+1)`,
seeded at the first observation (`y[0] = x[0]`). -/
def ewmMean (span : ℕ) : List ℚ → List ℚ
  | [] => []
  | x :: xs => x :: ewmFrom (2 / ((span : ℚ) + 1)) x xs

/-- `calculate_macd` (src lines 83–88): the MACD line is the pointwise
difference of the short- and long-span EMAs, the signal line is the EMA
of the MACD line. -/
def calculate_macd (data : List ℚ) (short_window long_window signal_window : ℕ) :
    List ℚ × List ℚ :=
  let short_ema := ewmMean short_window data
  let long_ema := ewmMean long_window data
  let macd := List.zipWith (fun a b => a - b) short_ema long_ema
  let signal := ewmMean signal_window macd
  (macd, signal)

/-! ## MoneyFlowAggregator: `calculate_money_flow` (src lines 36–66) -/

/-- One OHLCV row (one trading date of one ticker).  Dates are modelled
as naturals; only the columns the money-flow computation reads are
kept. -/
structure OHLCVRow where
  date : ℕ
  high : ℚ
  low : ℚ
  close : ℚ
  volume : ℚ
deriving DecidableEq

/-- One ticker's sub-table, as obtained by `data.xs(ticker, axis=1,
level=1)` (or the whole flat frame): which of the required columns are
present, and the rows.  A row carries all four numbers; an absent
column means the corresponding values are inaccessible, which is all
the source's column check observes. -/
structure TickerTable where
  hasHigh : Bool
  hasLow : Bool
  hasClose : Bool
  hasVolume : Bool
  rows : List OHLCVRow
deriving DecidableEq

/-- The `data` argument of `calculate_money_flow`: a two-level frame
keyed by (field, ticker) — modelled per ticker — or a flat single-ticker
frame. -/
inductive MFData where
  | multi (tables : List (String × TickerTable))
  | flat (table : TickerTable)
deriving DecidableEq

/-- `data.xs(ticker, axis=1, level=1)` on the two-level shape: first
matching ticker, `none` (→ `KeyError`) when absent. -/
def xsTicker (tables : List (String × TickerTable)) (t : String) :
    Option TickerTable :=
  (tables.find? (fun p => p.1 = t)).map (·.2)

/-- One output row: `['Ticker', 'Money Flow']` plus the `Date` restored
by `reset_index()`. -/
structure MoneyFlowRow where
  date : ℕ
  ticker : String
  moneyFlow : ℚ
deriving DecidableEq

/-- The first absent entry of `required_columns = ['High', 'Low',
'Close', 'Volume']`, in the source's check order. -/
def firstMissingColumn (td : TickerTable) : Option String :=
  if !td.hasHigh then some "High"
  else if !td.hasLow then some "Low"
  else if !td.hasClose then some "Close"
  else if !td.hasVolume then some "Volume"
  else none

/-- The sub-table the loop body works on: `data.xs(ticker, axis=1,
level=1)` on the two-level shape, `data.copy()` on the flat shape. -/
def lookupTable (data : MFData) (ticker : String) : Option TickerTable :=
  match data with
  | .multi tables => xsTicker tables ticker
  | .flat table => some table

/-- The rows one ticker contributes:
`ticker_data[['Ticker', 'Money Flow']].reset_index()` with
`Money Flow = ((High + Low + Close) / 3) * Volume`. -/
def tickerBlock (td : TickerTable) (ticker : String) : List MoneyFlowRow :=
  td.rows.map (fun r => ⟨r.date, ticker, ((r.high + r.low + r.close) / 3) * r.volume⟩)

/-- The loop body of `calculate_money_flow` for one ticker: select the
ticker's sub-table (a missing ticker makes `xs` raise `KeyError`),
check the four required columns (`raise KeyError` on the first missing
one), then emit one row per date. -/
def processTicker (data : MFData) (ticker : String) :
    Except String (List MoneyFlowRow) :=
  match lookupTable data ticker with
  | none => .error ("KeyError: " ++ ticker)
  | some td =>
      match firstMissingColumn td with
      | some col =>
          .error ("Missing expected column: " ++ col ++ " for ticker: " ++ ticker)
      | none => .ok (tickerBlock td ticker)

/-- `calculate_money_flow` (src lines 36–66): process the tickers in
order and concatenate the per-ticker results (`pd.concat`).  A raised
`KeyError` aborts the whole loop, so the result is all-or-nothing:
either every ticker's rows or a single error. -/
def calculate_money_flow (data : MFData) : List String →
    Except String (List MoneyFlowRow)
  | [] => .ok []
  | t :: ts =>
      match processTicker data t with
      | .error e => .error e
      | .ok rows =>
          match calculate_money_flow data ts with
          | .error e => .error e
          | .ok rest => .ok (rows ++ rest)

/-! ## OrchestrationFacade: the sector-selection fragment
(src lines 157, 187–189)

`moneyflow_tickers = tickers` binds a second name to the *same* Python
list object, and `moneyflow_tickers.append(...)` mutates that object in
place.  The aliasing is modelled with an explicit heap of list objects
addressed by references: both variables hold reference `0` to the list
holding the user-selected tickers. -/
structure SessionState where
  heap : List (List String)
  tickersRef : ℕ
  moneyflowRef : ℕ
deriving DecidableEq

/-- State after line 157: one list object holding the user-selected
tickers, with both `tickers` and `moneyflow_tickers` referring to it. -/
def initSession (userTickers : List String) : SessionState :=
  ⟨[userTickers], 0, 0⟩

/-- `moneyflow_tickers.append(sectors[sector])` for one selected
sector: mutate the list object `moneyflow_tickers` refers to. -/
def appendSector (st : SessionState) (sectorTicker : String) : SessionState :=
  { st with
    heap := st.heap.set st.moneyflowRef
      ((st.heap.getD st.moneyflowRef []) ++ [sectorTicker]) }

/-- The loop over `selected_sectors` (src lines 187–189): append every
selected sector's ETF ticker. -/
def applySectorSelection (st : SessionState) (selected : List String) :
    SessionState :=
  selected.foldl appendSector st

/-- The value of the variable `tickers` (the user-selected ticker list)
after sector selection has been applied. -/
def userTickersAfter (userTickers selected : List String) : List String :=
  let st := applySectorSelection (initSession userTickers) selected
  st.heap.getD st.tickersRef []

/-- The value of `moneyflow_tickers` after sector selection. -/
def moneyflowTickersAfter (userTickers selected : List String) : List String :=
  let st := applySectorSelection (initSession userTickers) selected
  st.heap.getD st.moneyflowRef []

/-- The field names of a frame's (outer) column keys, the level
`get_stock_data` inspects for `"Close"`. -/
def fieldKeys : Frame → List String
  | .multi cols => outerKeys cols
  | .flat cols => cols.map (fun c => c.1)

/-! ## Helper lemmas -/

lemma appendSector_init (u : List String) (x : String) :
    appendSector (initSession u) x = initSession (u ++ [x]) := rfl

lemma applySectorSelection_init (u s : List String) :
    applySectorSelection (initSession u) s = initSession (u ++ s) := by
  induction s generalizing u with
  | nil => simp [applySectorSelection]
  | cons x s ih =>
      show List.foldl appendSector (initSession u) (x :: s) = _
      rw [List.foldl_cons, appendSector_init]
      show applySectorSelection (initSession (u ++ [x])) s = _
      rw [ih]
      simp

lemma ewmFrom_const (α c : ℚ) : ∀ m : ℕ,
    ewmFrom α c (List.replicate m c) = List.replicate m c
  | 0 => rfl
  | m + 1 => by
      have h : (1 - α) * c + α * c = c := by ring
      simp only [List.replicate_succ, ewmFrom, h]
      rw [ewmFrom_const α c m]

lemma ewmMean_const (span : ℕ) (c : ℚ) (n : ℕ) :
    ewmMean span (List.replicate n c) = List.replicate n c := by
  cases n with
  | zero => rfl
  | succ m => simp only [List.replicate_succ, ewmMean, ewmFrom_const]

/-! ## C5 — sector selection mutates the user ticker list -/

/-- C5 (counterexample): with user list `["AAPL"]` and one selected
sector `"XLK"`, the variable `tickers` no longer holds `["AAPL"]` after
the sector loop: the claim that the user-selected list is unchanged is
false. -/
theorem sector_mutation_cex : userTickersAfter ["AAPL"] ["XLK"] ≠ ["AAPL"] := by
  decide

/-- C5 (amended): `moneyflow_tickers = tickers` aliases the user list,
so the sector loop appends in place: afterwards both variables hold the
user tickers followed by every selected sector ticker — the union is
achieved by mutating the user-selected list, which is not unchanged. -/
theorem sector_selection_mutates (u s : List String) :
    userTickersAfter u s = u ++ s ∧ moneyflowTickersAfter u s = u ++ s := by
  unfold userTickersAfter moneyflowTickersAfter
  rw [applySectorSelection_init]
  simp [initSession]

/-! ## C9 — MACD of a constant series is identically zero -/

/-- C9: on a constant series both the MACD line and the signal line are
all zeros, each of the same length as the input. -/
theorem macd_constant_zero (n : ℕ) (c : ℚ) (sw lw sg : ℕ) :
    calculate_macd (List.replicate n c) sw lw sg =
      (List.replicate n 0, List.replicate n 0) ∧
    (calculate_macd (List.replicate n c) sw lw sg).1.length = n ∧
    (calculate_macd (List.replicate n c) sw lw sg).2.length = n := by
  have hz : List.zipWith (fun a b => a - b) (List.replicate n c) (List.replicate n c) =
      List.replicate n (0 : ℚ) := by
    rw [List.zipWith_replicate]
    simp
  have h : calculate_macd (List.replicate n c) sw lw sg =
      (List.replicate n 0, List.replicate n 0) := by
    simp only [calculate_macd, ewmMean_const, hz, ewmMean_const sg (0 : ℚ) n]
  refine ⟨h, ?_, ?_⟩ <;> rw [h] <;> simp

/-! ## C10 — MACD and signal lines start at zero on any non-empty series -/

/-- C10: both EMAs are seeded at the first observation, so on any
non-empty input the MACD line's first value is `0`, and the signal
line — an EMA of the MACD line seeded at its first value — also starts
at `0`. -/
theorem macd_first_index_zero (x : ℚ) (xs : List ℚ) (sw lw sg : ℕ) :
    (calculate_macd (x :: xs) sw lw sg).1.head? = some 0 ∧
    (calculate_macd (x :: xs) sw lw sg).2.head? = some 0 := by
  simp [calculate_macd, ewmMean, sub_self]

/-! ## C1 — normalization is not shape-independent -/

/-- C1 (counterexample): the same closes `[1, 2]` for the single ticker
`"A"`, once as a two-level frame (field `"Close"`, ticker `"A"`) and
once as a single-ticker flat frame (column `"Close"`), normalize to
different results: the two-level frame is projected to a one-column
frame keyed by ticker, the flat frame is returned keyed by field name. -/
theorem normalize_roundtrip_cex :
    get_stock_data (Frame.multi [("Close", "A", [1, 2])]) ≠
      get_stock_data (Frame.flat [("Close", [1, 2])]) := by
  decide

/-- C1 (amended): a non-empty two-level frame containing `"Close"` is
projected to the `Close` sub-table (one column per ticker, keyed by
ticker); a non-empty flat frame containing a `"Close"` column is
returned completely unchanged, all columns included — so the two shapes
do not normalize to identical results. -/
theorem normalize_shapes (cols : List (String × String × List ℚ))
    (fcols : List (String × List ℚ))
    (hm : (Frame.multi cols).isEmpty = false) (hmc : "Close" ∈ outerKeys cols)
    (hf : (Frame.flat fcols).isEmpty = false)
    (hfc : "Close" ∈ fcols.map (fun c => c.1)) :
    get_stock_data (Frame.multi cols) = some (Frame.flat (selectField "Close" cols)) ∧
    get_stock_data (Frame.flat fcols) = some (Frame.flat fcols) := by
  constructor <;> simp [get_stock_data, hm, hf, hmc, hfc]

/-- Witness for `normalize_shapes` at concrete frames. -/
theorem normalize_shapes_witness :
    get_stock_data (Frame.multi [("Close", "A", [1, 2]), ("Open", "A", [3, 4])]) =
      some (Frame.flat (selectField "Close" [("Close", "A", [1, 2]), ("Open", "A", [3, 4])])) ∧
    get_stock_data (Frame.flat [("Open", [3, 4]), ("Close", [1, 2])]) =
      some (Frame.flat [("Open", [3, 4]), ("Close", [1, 2])]) :=
  normalize_shapes _ _ (by decide) (by decide) (by decide) (by decide)

/-! ## C4 — there is no "Adj Close" legacy fallback -/

/-- C4 (counterexample): a non-empty flat frame that carries the legacy
`"Adj Close"` column but no `"Close"` column is rejected outright — the
claimed fallback to `"Adj Close"` before failing does not happen. -/
theorem adj_close_fallback_cex :
    get_stock_data (Frame.flat [("Adj Close", [1, 2])]) = none := by
  decide

/-- C4 (amended): `get_stock_data` only ever looks for the field
`"Close"`: whenever `"Close"` is absent from the (outer) column keys —
even when `"Adj Close"` is present — it fails; there is no legacy-name
fallback. -/
theorem no_adj_close_fallback (df : Frame) (h : "Close" ∉ fieldKeys df) :
    get_stock_data df = none := by
  cases df with
  | multi cols =>
      by_cases he : (Frame.multi cols).isEmpty <;>
        simp_all [get_stock_data, fieldKeys]
  | flat cols =>
      by_cases he : (Frame.flat cols).isEmpty <;>
        simp_all [get_stock_data, fieldKeys]

/-- Witness for `no_adj_close_fallback` at a concrete frame. -/
theorem no_adj_close_fallback_witness :
    get_stock_data (Frame.flat [("Adj Close", [1]), ("Volume", [2])]) = none :=
  no_adj_close_fallback _ (by decide)

/-! ## C3 — a missing column fails the whole money-flow request -/

/-- C3 (counterexample): two requested tickers, `"A"` complete and
`"B"` lacking the `Volume` column; `calculate_money_flow` does not
return `"A"`'s rows next to a per-ticker error — it aborts the whole
request with the raised `KeyError`. -/
theorem money_flow_partial_cex :
    calculate_money_flow
      (MFData.multi
        [("A", ⟨true, true, true, true, [⟨0, 10, 8, 9, 100⟩]⟩),
         ("B", ⟨true, true, true, false, [⟨0, 5, 3, 4, 50⟩]⟩)])
      ["A", "B"] =
      Except.error "Missing expected column: Volume for ticker: B" := by
  rfl

/-- C3 (amended): a required OHLCV column absent for any requested
ticker makes the whole `calculate_money_flow` call fail: whenever some
ticker's loop body raises, the function returns an error and no rows at
all, also for the tickers that had complete data. -/
theorem money_flow_total_failure (data : MFData) (ts : List String)
    (h : ∃ t ∈ ts, (processTicker data t).isOk = false) :
    (calculate_money_flow data ts).isOk = false := by
  induction ts with
  | nil => simp at h
  | cons t ts ih =>
      obtain ⟨t0, ht0, herr⟩ := h
      rcases List.mem_cons.mp ht0 with heq | htl
      · subst heq
        cases hp : processTicker data t0 with
        | error e => simp [calculate_money_flow, hp, Except.isOk, Except.toBool]
        | ok rows => rw [hp] at herr; simp [Except.isOk, Except.toBool] at herr
      · cases hp : processTicker data t with
        | error e => simp [calculate_money_flow, hp, Except.isOk, Except.toBool]
        | ok rows =>
            have hrec := ih ⟨t0, htl, herr⟩
            cases hr : calculate_money_flow data ts with
            | error e => simp [calculate_money_flow, hp, hr, Except.isOk, Except.toBool]
            | ok out => rw [hr] at hrec; simp [Except.isOk, Except.toBool] at hrec

/-- Witness for `money_flow_total_failure` at concrete data. -/
theorem money_flow_total_failure_witness :
    (calculate_money_flow
      (MFData.multi
        [("A", ⟨true, true, true, true, [⟨0, 10, 8, 9, 100⟩, ⟨1, 11, 9, 10, 200⟩]⟩),
         ("B", ⟨true, true, true, false, [⟨0, 5, 3, 4, 50⟩]⟩)])
      ["A", "B"]).isOk = false :=
  money_flow_total_failure _ _ ⟨"B", by decide, by decide⟩

/-! ## RSI helper lemmas -/

lemma gains_length (data : List ℚ) : (gains data).length = data.length := by
  cases data with
  | nil => rfl
  | cons x xs => simp [gains]

lemma losses_length (data : List ℚ) : (losses data).length = data.length := by
  cases data with
  | nil => rfl
  | cons x xs => simp [losses]

lemma rollingMean_length (w : ℕ) (xs : List ℚ) :
    (rollingMean w xs).length = xs.length := by
  simp [rollingMean]

/-- Every element of a `zipWith` satisfies any property the combining
function always satisfies. -/
lemma forall_mem_zipWith {α β γ : Type} (f : α → β → γ) (P : γ → Prop)
    (hP : ∀ a b, P (f a b)) (l₁ : List α) (l₂ : List β) :
    ∀ y ∈ List.zipWith f l₁ l₂, P y := by
  intro y hy
  rw [List.mem_iff_getElem] at hy
  obtain ⟨i, hi, hyi⟩ := hy
  rw [List.getElem_zipWith] at hyi
  rw [← hyi]
  exact hP _ _

lemma gains_nonneg (data : List ℚ) : ∀ x ∈ gains data, 0 ≤ x := by
  cases data with
  | nil => simp [gains]
  | cons x xs =>
      intro y hy
      rcases List.mem_cons.mp hy with h | h
      · simp [h]
      · exact forall_mem_zipWith _ (fun y => 0 ≤ y)
          (fun a b => le_max_right _ _) _ _ y h

lemma losses_nonneg (data : List ℚ) : ∀ x ∈ losses data, 0 ≤ x := by
  cases data with
  | nil => simp [losses]
  | cons x xs =>
      intro y hy
      rcases List.mem_cons.mp hy with h | h
      · simp [h]
      · exact forall_mem_zipWith _ (fun y => 0 ≤ y)
          (fun a b => le_max_right _ _) _ _ y h

/-- Every cell of a rolling mean of non-negative values is
non-negative. -/
lemma rollingMean_mem_nonneg (w : ℕ) (xs : List ℚ)
    (hxs : ∀ x ∈ xs, 0 ≤ x) : ∀ m ∈ rollingMean w xs, 0 ≤ m := by
  intro m hm
  simp only [rollingMean, List.mem_map, List.mem_range] at hm
  obtain ⟨i, hi, hmi⟩ := hm
  rw [← hmi]
  refine div_nonneg (List.sum_nonneg ?_) (by positivity)
  intro x hx
  exact hxs x (List.mem_of_mem_take (List.mem_of_mem_drop hx))

/-- Every cell of a rolling mean of an all-zero series is zero. -/
lemma rollingMean_mem_zero (w : ℕ) (xs : List ℚ)
    (hxs : ∀ x ∈ xs, x = 0) : ∀ m ∈ rollingMean w xs, m = 0 := by
  intro m hm
  simp only [rollingMean, List.mem_map, List.mem_range] at hm
  obtain ⟨i, hi, hmi⟩ := hm
  rw [← hmi, List.sum_eq_zero, zero_div]
  intro x hx
  exact hxs x (List.mem_of_mem_take (List.mem_of_mem_drop hx))

/-- The bound cell of RSI after `fillna`: for non-negative averages, it
is a plain number in `[0, 100]` and in particular never `NaN`. -/
lemma fillna50_rsiCell_bounds (g l : ℚ) (hg : 0 ≤ g) (hl : 0 ≤ l) :
    fillna50 (rsiCell g l) ≠ FVal.nan ∧
    ∃ q, fillna50 (rsiCell g l) = FVal.num q ∧ 0 ≤ q ∧ q ≤ 100 := by
  unfold rsiCell fillna50
  by_cases hl0 : l = 0
  · by_cases hg0 : g = 0
    · simp only [hl0, hg0, if_pos rfl]
      exact ⟨by simp, 50, rfl, by norm_num, by norm_num⟩
    · simp only [hl0, if_pos rfl, if_neg hg0]
      exact ⟨by simp, 100, rfl, by norm_num, by norm_num⟩
  · have hlpos : 0 < l := lt_of_le_of_ne hl (Ne.symm hl0)
    have hrs : 0 ≤ g / l := div_nonneg hg hl
    have h1 : (0 : ℚ) < 1 + g / l := by linarith
    have hle : 100 / (1 + g / l) ≤ 100 := by
      apply div_le_self (by norm_num)
      linarith
    have hpos : 0 < 100 / (1 + g / l) := by positivity
    simp only [if_neg hl0]
    exact ⟨by simp, 100 - 100 / (1 + g / l), rfl, by linarith, by linarith⟩

/-! ## C2 — RSI is total, length-preserving and bounded in [0, 100] -/

/-- C2: on any series with at least one point and any valid window,
`calculate_rsi` returns as many values as the input has, and every
value is a plain number in `[0, 100]` — no position is `NaN`. -/
theorem rsi_length_and_range (data : List ℚ) (window : ℕ)
    (hd : 1 ≤ data.length) (hw : 1 ≤ window) :
    (calculate_rsi data window).length = data.length ∧
    ∀ v ∈ calculate_rsi data window,
      v ≠ FVal.nan ∧ ∃ q, v = FVal.num q ∧ 0 ≤ q ∧ q ≤ 100 := by
  constructor
  · simp [calculate_rsi, rollingMean_length, gains_length, losses_length]
  · intro v hv
    simp only [calculate_rsi, List.mem_map] at hv
    obtain ⟨u, hu, hvu⟩ := hv
    rw [List.mem_iff_getElem] at hu
    obtain ⟨i, hi, hui⟩ := hu
    rw [List.getElem_zipWith] at hui
    have hilen := hi
    rw [List.length_zipWith, rollingMean_length, rollingMean_length,
      gains_length, losses_length] at hilen
    have hgl : i < (rollingMean window (gains data)).length := by
      rw [rollingMean_length, gains_length]; omega
    have hll : i < (rollingMean window (losses data)).length := by
      rw [rollingMean_length, losses_length]; omega
    have hg := rollingMean_mem_nonneg window (gains data) (gains_nonneg data) _
      (List.getElem_mem hgl)
    have hl := rollingMean_mem_nonneg window (losses data) (losses_nonneg data) _
      (List.getElem_mem hll)
    rw [← hvu, ← hui]
    exact fillna50_rsiCell_bounds _ _ hg hl

/-- Witness for `rsi_length_and_range` on the two-point series
`[1, 2]`. -/
theorem rsi_length_and_range_witness :
    1 ≤ ([(1 : ℚ), 2] : List ℚ).length ∧ 1 ≤ 14 ∧
    ((calculate_rsi [(1 : ℚ), 2] 14).length = ([(1 : ℚ), 2] : List ℚ).length ∧
      ∀ v ∈ calculate_rsi [(1 : ℚ), 2] 14,
        v ≠ FVal.nan ∧ ∃ q, v = FVal.num q ∧ 0 ≤ q ∧ q ≤ 100) :=
  ⟨by norm_num, by norm_num,
    rsi_length_and_range [(1 : ℚ), 2] 14 (by norm_num) (by norm_num)⟩

/-! ## C7 — RSI of a flat series is identically 50 -/

lemma gains_replicate (n : ℕ) (c : ℚ) :
    gains (List.replicate n c) = List.replicate n 0 := by
  cases n with
  | zero => rfl
  | succ m =>
      rw [List.replicate_succ, gains, ← List.replicate_succ, List.zipWith_replicate]
      simp [List.replicate_succ, Nat.min_def]

lemma losses_replicate (n : ℕ) (c : ℚ) :
    losses (List.replicate n c) = List.replicate n 0 := by
  cases n with
  | zero => rfl
  | succ m =>
      rw [List.replicate_succ, losses, ← List.replicate_succ, List.zipWith_replicate]
      simp [List.replicate_succ, Nat.min_def]

lemma rollingMean_replicate_zero (w n : ℕ) :
    rollingMean w (List.replicate n (0 : ℚ)) = List.replicate n 0 := by
  rw [List.eq_replicate_iff]
  refine ⟨by simp [rollingMean_length], ?_⟩
  exact rollingMean_mem_zero w _ (by simp)

/-- C7: a constant series has zero gains and zero losses everywhere, so
every RSI cell is the `0/0` case, filled with the neutral value 50. -/
theorem rsi_flat_is_50 (n : ℕ) (c : ℚ) (window : ℕ)
    (hn : 2 ≤ n) (hw : 1 ≤ window) :
    calculate_rsi (List.replicate n c) window = List.replicate n (FVal.num 50) := by
  have h : calculate_rsi (List.replicate n c) window =
      (List.zipWith rsiCell (List.replicate n 0) (List.replicate n 0)).map fillna50 := by
    simp only [calculate_rsi, gains_replicate, losses_replicate,
      rollingMean_replicate_zero]
  rw [h, List.zipWith_replicate]
  simp [rsiCell, fillna50]

/-- Witness for `rsi_flat_is_50` on three repetitions of 7. -/
theorem rsi_flat_is_50_witness :
    (2 : ℕ) ≤ 3 ∧ (1 : ℕ) ≤ 14 ∧
    calculate_rsi (List.replicate 3 (7 : ℚ)) 14 = List.replicate 3 (FVal.num 50) :=
  ⟨by norm_num, by norm_num, rsi_flat_is_50 3 7 14 (by norm_num) (by norm_num)⟩

/-! ## C8 — RSI of a strictly increasing series is 100 past the first
window -/

/-- The per-index value of a rolling mean. -/
lemma rollingMean_get (w : ℕ) (xs : List ℚ) (i : ℕ) (h : i < xs.length) :
    (rollingMean w xs).get ⟨i, by rw [rollingMean_length]; exact h⟩ =
      ((xs.take (i + 1)).drop (i + 1 - w)).sum /
        (((xs.take (i + 1)).drop (i + 1 - w)).length : ℚ) := by
  simp [rollingMean]

/-- On a strictly increasing series every loss is zero. -/
lemma losses_all_zero : ∀ (data : List ℚ), data.Chain' (· < ·) →
    ∀ x ∈ losses data, x = 0
  | [], _ => by simp [losses]
  | [c], _ => by simp [losses]
  | c :: d :: ys, h => by
      have hcd : c < d := (List.chain'_cons.mp h).1
      have ih := losses_all_zero (d :: ys) (List.chain'_cons.mp h).2
      intro x hx
      simp only [losses, List.zipWith_cons_cons, List.mem_cons] at hx
      rcases hx with h0 | hfcd | htl
      · exact h0
      · rw [hfcd, max_eq_right (sub_nonpos.mpr (le_of_lt hcd))]
      · exact ih x (by simp only [losses, List.mem_cons]; exact Or.inr htl)

/-- On a strictly increasing series every gain past index 0 (the
`drop 1` of the gain series) is positive. -/
lemma gains_drop_one_pos : ∀ (data : List ℚ), data.Chain' (· < ·) →
    ∀ x ∈ (gains data).drop 1, 0 < x
  | [], _ => by simp [gains]
  | [c], _ => by simp [gains]
  | c :: d :: ys, h => by
      have hcd : c < d := (List.chain'_cons.mp h).1
      have ih := gains_drop_one_pos (d :: ys) (List.chain'_cons.mp h).2
      intro x hx
      simp only [gains, List.zipWith_cons_cons, List.drop_succ_cons,
        List.drop_zero, List.mem_cons] at hx
      rcases hx with hfcd | htl
      · rw [hfcd]
        exact lt_max_iff.mpr (Or.inl (sub_pos.mpr hcd))
      · refine ih x ?_
        simp only [gains, List.drop_succ_cons, List.drop_zero]
        exact htl

/-- Past the first full window, the rolling average of the gains of a
strictly increasing series is positive: the window only covers gains at
indices ≥ 1. -/
lemma rollingMean_gains_pos (data : List ℚ) (window i : ℕ)
    (hmono : data.Chain' (· < ·))
    (hw : 1 ≤ window) (hwi : window ≤ i) (hi : i < data.length) :
    0 < (rollingMean window (gains data)).get
      ⟨i, by rw [rollingMean_length, gains_length]; exact hi⟩ := by
  have hglen : (gains data).length = data.length := gains_length data
  have higl : i < (gains data).length := by omega
  rw [rollingMean_get window (gains data) i higl]
  have htlen : ((gains data).take (i + 1)).length = i + 1 := by
    rw [List.length_take]; omega
  have hwlen : (((gains data).take (i + 1)).drop (i + 1 - window)).length =
      (i + 1) - (i + 1 - window) := by
    rw [List.length_drop, htlen]
  have hwpos : 0 < (((gains data).take (i + 1)).drop (i + 1 - window)).length := by
    rw [hwlen]; omega
  have hmem : ∀ x ∈ ((gains data).take (i + 1)).drop (i + 1 - window), 0 < x := by
    intro x hx
    apply gains_drop_one_pos data hmono
    rw [List.drop_take] at hx
    have hx2 := List.mem_of_mem_take hx
    have hsplit : List.drop (i + 1 - window) (gains data) =
        List.drop (i - window) (List.drop 1 (gains data)) := by
      rw [List.drop_drop]
      congr 1
      omega
    rw [hsplit] at hx2
    exact List.mem_of_mem_drop hx2
  have hsum : 0 < (((gains data).take (i + 1)).drop (i + 1 - window)).sum :=
    List.sum_pos _ hmem (by rw [← List.length_pos_iff_ne_nil]; omega)
  exact div_pos hsum (by exact_mod_cast hwpos)

/-- C8: on a strictly increasing series (every step a gain, no
decreases), the RSI value at every index from the first full window
onward is exactly 100: the average loss is 0 while the average gain is
positive. -/
theorem rsi_increasing_is_100 (data : List ℚ) (window i : ℕ)
    (hmono : data.Chain' (· < ·))
    (hw : 1 ≤ window) (hwi : window ≤ i) (hi : i < data.length) :
    (calculate_rsi data window)[i]? = some (FVal.num 100) := by
  have hlen : i < (calculate_rsi data window).length := by
    simp only [calculate_rsi, List.length_map, List.length_zipWith,
      rollingMean_length, gains_length, losses_length]
    omega
  rw [List.getElem?_eq_getElem hlen]
  have hgl : i < (rollingMean window (gains data)).length := by
    rw [rollingMean_length, gains_length]; omega
  have hll : i < (rollingMean window (losses data)).length := by
    rw [rollingMean_length, losses_length]; omega
  have hB : (rollingMean window (losses data))[i] = 0 :=
    rollingMean_mem_zero window (losses data) (losses_all_zero data hmono) _
      (List.getElem_mem hll)
  have hA : 0 < (rollingMean window (gains data))[i] := by
    have := rollingMean_gains_pos data window i hmono hw hwi hi
    simpa using this
  have hcell : (calculate_rsi data window)[i] =
      fillna50 (rsiCell ((rollingMean window (gains data))[i])
        ((rollingMean window (losses data))[i])) := by
    simp only [calculate_rsi, List.getElem_map, List.getElem_zipWith]
  rw [hcell, hB]
  simp [rsiCell, ne_of_gt hA, fillna50]

/-- Witness for `rsi_increasing_is_100` on `[1, 2, 3]` with window 1 at
index 1. -/
theorem rsi_increasing_is_100_witness :
    (calculate_rsi [(1 : ℚ), 2, 3] 1)[1]? = some (FVal.num 100) :=
  rsi_increasing_is_100 [(1 : ℚ), 2, 3] 1 1 (by norm_num [List.chain'_cons])
    (by norm_num) (le_refl 1) (by norm_num)

/-! ## C6 — money-flow row count and key uniqueness on success -/

/-- The looked-up sub-table, defaulted to an empty table (only used
under a hypothesis that the lookup succeeds). -/
def lookedUp (data : MFData) (t : String) : TickerTable :=
  (lookupTable data t).getD ⟨false, false, false, false, []⟩

/-- When every requested ticker resolves to a complete sub-table, the
loop succeeds and returns the concatenation of the per-ticker blocks in
request order. -/
lemma calculate_money_flow_ok (data : MFData) (ts : List String)
    (h : ∀ t ∈ ts, ∃ td, lookupTable data t = some td ∧ firstMissingColumn td = none) :
    calculate_money_flow data ts =
      Except.ok ((ts.map (fun t => tickerBlock (lookedUp data t) t)).flatten) := by
  induction ts with
  | nil => rfl
  | cons t ts ih =>
      obtain ⟨td, hl, hc⟩ := h t (List.mem_cons_self t ts)
      have hp : processTicker data t = Except.ok (tickerBlock td t) := by
        simp [processTicker, hl, hc]
      have hrec := ih (fun u hu => h u (List.mem_cons_of_mem t hu))
      simp only [calculate_money_flow, hp, hrec, List.map_cons, List.flatten_cons]
      simp [lookedUp, hl]

/-- With pairwise-distinct ticker keys, `xs` on a ticker key of the
mapping returns that ticker's sub-table. -/
lemma xsTicker_of_nodup (tables : List (String × TickerTable))
    (hnd : (tables.map (fun p => p.1)).Nodup) :
    ∀ p ∈ tables, xsTicker tables p.1 = some p.2 := by
  induction tables with
  | nil => intro p hp; simp at hp
  | cons q rest ih =>
      intro p hp
      rw [List.map_cons, List.nodup_cons] at hnd
      rcases List.mem_cons.mp hp with rfl | hrest
      · unfold xsTicker
        rw [List.find?_cons_of_pos _ (by simp)]
        rfl
      · have hne : ¬ (q.1 = p.1) := by
          intro he
          exact hnd.1 (he ▸ List.mem_map.mpr ⟨p, hrest, rfl⟩)
        unfold xsTicker
        rw [List.find?_cons_of_neg _ (by simpa using hne)]
        have hr := ih hnd.2 p hrest
        unfold xsTicker at hr
        exact hr

/-- Every (date, ticker) pair of a ticker's block carries that
ticker. -/
lemma tickerBlock_pair_snd (td : TickerTable) (t : String) :
    ∀ x ∈ (tickerBlock td t).map (fun r => (r.date, r.ticker)), x.2 = t := by
  intro x hx
  simp only [tickerBlock, List.map_map, List.mem_map, Function.comp] at hx
  obtain ⟨r, hr, hxr⟩ := hx
  rw [← hxr]

/-- C6: for an input mapping from (distinct) tickers to complete OHLCV
record sets with per-ticker distinct dates, `calculate_money_flow` over
exactly the mapping's tickers succeeds; the output has one row per
(ticker, record), so its length is the sum over tickers of the record
counts, and no (date, ticker) pair repeats. -/
theorem money_flow_count_and_nodup (tables : List (String × TickerTable))
    (hkeys : (tables.map (fun p => p.1)).Nodup)
    (hcols : ∀ p ∈ tables, firstMissingColumn p.2 = none)
    (hdates : ∀ p ∈ tables, (p.2.rows.map OHLCVRow.date).Nodup) :
    ∃ out,
      calculate_money_flow (MFData.multi tables) (tables.map (fun p => p.1)) =
        Except.ok out ∧
      out.length = (tables.map (fun p => p.2.rows.length)).sum ∧
      (out.map (fun r => (r.date, r.ticker))).Nodup := by
  have hlook : ∀ p ∈ tables, lookupTable (MFData.multi tables) p.1 = some p.2 :=
    fun p hp => xsTicker_of_nodup tables hkeys p hp
  have hts : ∀ t ∈ tables.map (fun p => p.1), ∃ td,
      lookupTable (MFData.multi tables) t = some td ∧
      firstMissingColumn td = none := by
    intro t ht
    obtain ⟨p, hp, rfl⟩ := List.mem_map.mp ht
    exact ⟨p.2, hlook p hp, hcols p hp⟩
  have hmap : (tables.map (fun p => p.1)).map
      (fun t => tickerBlock (lookedUp (MFData.multi tables) t) t) =
      tables.map (fun p => tickerBlock p.2 p.1) := by
    rw [List.map_map]
    apply List.map_congr_left
    intro p hp
    simp [Function.comp, lookedUp, hlook p hp]
  refine ⟨_, calculate_money_flow_ok _ _ hts, ?_, ?_⟩
  · rw [hmap, List.length_flatten, List.map_map]
    apply congrArg
    apply List.map_congr_left
    intro p hp
    simp [Function.comp, tickerBlock]
  · rw [hmap, List.map_flatten, List.map_map, List.nodup_flatten]
    constructor
    · intro l hl
      obtain ⟨p, hp, hlp⟩ := List.mem_map.mp hl
      rw [← hlp]
      have heq : (List.map (fun r => (r.date, r.ticker)) ∘
          fun p => tickerBlock p.2 p.1) p =
          (p.2.rows.map OHLCVRow.date).map (fun d => (d, p.1)) := by
        simp [Function.comp, tickerBlock, List.map_map]
      rw [heq]
      exact (hdates p hp).map (fun a b hab => (Prod.ext_iff.mp hab).1)
    · rw [List.pairwise_map]
      have hpw : tables.Pairwise (fun p q => p.1 ≠ q.1) :=
        List.pairwise_map.mp hkeys
      refine hpw.imp ?_
      intro p q hne x hxp hxq
      simp only [Function.comp] at hxp hxq
      exact hne ((tickerBlock_pair_snd _ _ x hxp).symm.trans
        (tickerBlock_pair_snd _ _ x hxq))

/-- Witness for `money_flow_count_and_nodup` on a two-ticker mapping. -/
theorem money_flow_count_and_nodup_witness :
    ∃ out,
      calculate_money_flow
        (MFData.multi
          [("A", ⟨true, true, true, true, [⟨0, 10, 8, 9, 100⟩, ⟨1, 11, 9, 10, 200⟩]⟩),
           ("B", ⟨true, true, true, true, [⟨0, 5, 3, 4, 50⟩]⟩)])
        ([("A", (⟨true, true, true, true,
            [⟨0, 10, 8, 9, 100⟩, ⟨1, 11, 9, 10, 200⟩]⟩ : TickerTable)),
          ("B", ⟨true, true, true, true, [⟨0, 5, 3, 4, 50⟩]⟩)].map (fun p => p.1)) =
        Except.ok out ∧
      out.length =
        ([("A", (⟨true, true, true, true,
            [⟨0, 10, 8, 9, 100⟩, ⟨1, 11, 9, 10, 200⟩]⟩ : TickerTable)),
          ("B", ⟨true, true, true, true, [⟨0, 5, 3, 4, 50⟩]⟩)].map
            (fun p => p.2.rows.length)).sum ∧
      (out.map (fun r => (r.date, r.ticker))).Nodup :=
  money_flow_count_and_nodup _ (by decide) (by decide) (by decide)

end StockDashboard
